import Mathlib

/-!
Shallow embedding of `genetic.py` (generic evolutionary search engine).

Conventions of the embedding:

* Genes are embedded as `List ℤ` (the concrete consumers use finite symbol
  alphabets; symbols are coded as integers) and fitness values as `ℤ`
  (the graph-coloring consumer's fitness is an integer count of satisfied
  constraints; the engine only compares fitnesses with `>` / `==`).
* Python objects have reference semantics: `Chromosome` objects are kept in
  a heap (`store : List Chromosome`, an object id is an index into it) and
  the parent pool (`parents` in the source) is a list of object ids.  This
  lets the embedding distinguish "two slots point at the same object" from
  "two slots hold equal copies", which the source relies on
  (`parents[pindex] = bestParent` stores the *same* object).
* Randomness is passed in explicitly: each call that the source makes to
  `random.sample` / `random.randrange` / `random.choice` / `random.random`
  takes the drawn value (or drawn indices) as an extra argument, so every
  theorem quantifying over those arguments covers every possible draw.
* Fallible Python calls (`random.sample` raising `ValueError`) are embedded
  with `Except String`.
* The generator `_get_improvement` is embedded as a step function on an
  explicit state (`GenState`), with the `new_child` callback's result per
  iteration supplied as an oracle input (`StepInput`); yields are returned
  as `Option Chromosome` snapshots.
-/

namespace Genetic

/-- Mirrors `class Strategies(Enum)` of the source. -/
inductive Strategies where
  | Create
  | Mutate
  | Crossover
deriving DecidableEq

/-- Mirrors `class Chromosome` of the source: genes, fitness, provenance
strategy tag and a mutable age. -/
structure Chromosome where
  Genes : List ℤ
  Fitness : ℤ
  Strategy : Strategies
  Age : ℕ
deriving DecidableEq

instance : Inhabited Chromosome := ⟨⟨[], 0, Strategies.Create, 0⟩⟩

/-- Mirrors `Chromosome.__init__`: the `Age` field always initializes to 0. -/
def mkChromosome (genes : List ℤ) (fitness : ℤ) (strategy : Strategies) : Chromosome :=
  ⟨genes, fitness, strategy, 0⟩

/-- The `(genes, fitness, strategy)` triple with which a reproduction
operator invokes the `Chromosome` constructor.  Used as the oracle input
describing the child produced by the `new_child` callback in one iteration
of `_get_improvement`'s main loop. -/
structure ChildSpec where
  Genes : List ℤ
  Fitness : ℤ
  Strategy : Strategies
deriving DecidableEq

/-- Build the fresh heap object for a `ChildSpec` (the `Chromosome(...)`
constructor call made by the reproduction operator). -/
def mkChrom (c : ChildSpec) : Chromosome :=
  mkChromosome c.Genes c.Fitness c.Strategy

/-- Forget the age of a heap object, recovering the constructor arguments. -/
def specOf (c : Chromosome) : ChildSpec :=
  ⟨c.Genes, c.Fitness, c.Strategy⟩

/-- State of the `_get_improvement` generator between iterations of its
main loop (`while True`, source lines 163-193).

`store` is the heap: an object id is an index into `store`.  `pool` embeds
the local variable `parents` (a list of object ids), `hist` the local
`historicalFitnesses`, `bestId` the object id held by the local variable
`bestParent`, `pindex` and `lastParentIndex` the synonymous locals, and
`maxAge` the `maxAge` argument (`none` embeds Python `None`). -/
structure GenState where
  store : List Chromosome
  pool : List ℕ
  hist : List ℤ
  bestId : ℕ
  pindex : ℕ
  lastParentIndex : ℕ
  maxAge : Option ℕ
deriving DecidableEq

/-- Oracle input for one main-loop iteration: the result of the
`new_child(parent, pindex, parents)` call.  `child` is the constructor
triple of the returned chromosome.  `donorReplace = some (d, spec)` records
the side effect `parents[donorIndex] = generate_parent()` that `_crossover`
performs on the pool when the crossover function signals
"indistinguishable" (it replaces slot `d` with a fresh chromosome built
from `spec`); `none` means the pool was not touched (the `_mutate` path and
the successful-crossover path). -/
structure StepInput where
  child : ChildSpec
  donorReplace : Option (ℕ × ChildSpec)
deriving DecidableEq

/-- The pool-cursor update at the top of each main-loop iteration
(source line 164): `pindex = pindex - 1 if pindex > 0 else lastParentIndex`. -/
def pEff (s : GenState) : ℕ :=
  if 0 < s.pindex then s.pindex - 1 else s.lastParentIndex

/-- Object id read from the pool slot at the updated cursor
(source line 165: `parent = parents[pindex]`). -/
def parentIdOf (s : GenState) : ℕ :=
  s.pool.getD (pEff s) 0

/-- The parent object of the current iteration. -/
def parentOf (s : GenState) : Chromosome :=
  s.store.getD (parentIdOf s) default

/-- Heap after the `new_child` call: the crossover-sentinel path first
allocates the fresh pool replacement, then the child object itself is
allocated. -/
def storeAfterChild (s : GenState) (inp : StepInput) : List Chromosome :=
  match inp.donorReplace with
  | none => s.store ++ [mkChrom inp.child]
  | some (_, spec) => s.store ++ [mkChrom spec] ++ [mkChrom inp.child]

/-- Pool after the `new_child` call (the crossover-sentinel path overwrites
the donor slot with the freshly allocated object's id). -/
def poolAfterChild (s : GenState) (inp : StepInput) : List ℕ :=
  match inp.donorReplace with
  | none => s.pool
  | some (d, _) => s.pool.set d s.store.length

/-- Object id of the child produced by `new_child`. -/
def childIdOf (s : GenState) (inp : StepInput) : ℕ :=
  match inp.donorReplace with
  | none => s.store.length
  | some _ => s.store.length + 1

/-- The heap after the `parent.Age += 1` mutation of source line 170:
the object read into `parent` at the top of the iteration is aged in place. -/
def agedStore (s : GenState) (inp : StepInput) : List Chromosome :=
  (storeAfterChild s inp).set (parentIdOf s) { parentOf s with Age := (parentOf s).Age + 1 }

/-- Mirrors `from bisect import bisect_left` as used on source line 173:
the standard binary search for the leftmost insertion point of `x` in
`a[lo:hi]`. -/
def bisect_left (a : List ℤ) (x : ℤ) (lo hi : ℕ) : ℕ :=
  if lo < hi then
    if a.getD ((lo + hi) / 2) 0 < x then bisect_left a x ((lo + hi) / 2 + 1) hi
    else bisect_left a x lo ((lo + hi) / 2)
  else lo
termination_by hi - lo
decreasing_by
· omega
· omega

/-- Source lines 173-176: `index = bisect_left(historicalFitnesses,
child.Fitness, 0, len(historicalFitnesses))`, `difference = len - index`,
`proportionSimilar = difference / len(historicalFitnesses)`. -/
def proportionSimilar (hist : List ℤ) (f : ℤ) : ℚ :=
  ((hist.length - bisect_left hist f 0 hist.length : ℕ) : ℚ) / (hist.length : ℚ)

/-- Source line 177: the annealing acceptance test
`random.random() < exp(-proportionSimilar)`, for a drawn value `draw`. -/
def annealAccepts (hist : List ℤ) (f : ℤ) (draw : ℚ) : Prop :=
  (draw : ℝ) < Real.exp (-((proportionSimilar hist f : ℚ) : ℝ))

/-- One iteration of the main loop of `_get_improvement`
(source lines 163-193).  `inp` is the oracle record of the `new_child`
call; `b` is the outcome of the acceptance test of source line 177
(`random.random() < exp(-proportionSimilar)`); it is examined only on the
branch where the source draws it, and theorems tie it to `annealAccepts`.
Returns the new state and the yielded chromosome, if any. -/
def stepGen (s : GenState) (inp : StepInput) (b : Bool) : GenState × Option Chromosome :=
  let p := pEff s
  let parent := parentOf s
  let child := mkChrom inp.child
  let store2 := storeAfterChild s inp
  let pool2 := poolAfterChild s inp
  let cid := childIdOf s inp
  if parent.Fitness > child.Fitness then
    match s.maxAge with
    | none => ({ s with store := store2, pool := pool2, pindex := p }, none)
    | some maxAge =>
      let store3 := store2.set (parentIdOf s) { parent with Age := parent.Age + 1 }
      if maxAge > parent.Age + 1 then
        ({ s with store := store3, pool := pool2, pindex := p }, none)
      else if b then
        ({ s with store := store3, pool := pool2.set p cid, pindex := p }, none)
      else
        let best := store3.getD s.bestId default
        ({ s with store := store3.set s.bestId { best with Age := 0 },
                  pool := pool2.set p s.bestId, pindex := p }, none)
  else if ¬ child.Fitness > parent.Fitness then
    ({ s with store := store2.set cid { child with Age := parent.Age + 1 },
              pool := pool2.set p cid, pindex := p }, none)
  else
    let child0 := { child with Age := 0 }
    let store3 := store2.set cid child0
    if child0.Fitness > (store2.getD s.bestId default).Fitness then
      ({ s with store := store3, pool := pool2.set p cid, pindex := p,
                bestId := cid, hist := s.hist ++ [child0.Fitness] }, some child0)
    else
      ({ s with store := store3, pool := pool2.set p cid, pindex := p }, none)

/-- Run the main loop for a list of per-iteration oracle inputs, collecting
the yielded chromosomes in order. -/
def runGen : GenState → List (StepInput × Bool) → GenState × List Chromosome
  | s, [] => (s, [])
  | s, ib :: rest =>
    let r1 := stepGen s ib.1 ib.2
    let r2 := runGen r1.1 rest
    (r2.1, r1.2.toList ++ r2.2)

/-- One turn of the pool-seeding loop of `_get_improvement`
(source lines 154-160): generate a parent, yield it (and promote it to
global best, appending its fitness to the ledger) if it strictly beats the
current best, and append it to the pool. -/
def seedStep (acc : GenState × List Chromosome) (spec : ChildSpec) : GenState × List Chromosome :=
  let s := acc.1
  let parent := mkChrom spec
  let pid := s.store.length
  if parent.Fitness > (s.store.getD s.bestId default).Fitness then
    ({ s with store := s.store ++ [parent], pool := s.pool ++ [pid],
              bestId := pid, hist := s.hist ++ [parent.Fitness] }, acc.2 ++ [parent])
  else
    ({ s with store := s.store ++ [parent], pool := s.pool ++ [pid] }, acc.2)

/-- The initialization phase of `_get_improvement` (source lines 150-162):
the first parent is generated and yielded unconditionally, seeds the ledger
and the pool; then `poolSize - 1` further parents (`seeds`, the constructor
triples delivered by `generate_parent`) are processed by `seedStep`.
`pindex` starts at 1 and `lastParentIndex = poolSize - 1`.  Returns the
loop-entry state and the list of chromosomes yielded during seeding. -/
def initGen (first : ChildSpec) (seeds : List ChildSpec) (maxAge : Option ℕ) :
    GenState × List Chromosome :=
  let b := mkChrom first
  let s0 : GenState :=
    { store := [b], pool := [0], hist := [b.Fitness], bestId := 0,
      pindex := 1, lastParentIndex := seeds.length, maxAge := maxAge }
  seeds.foldl seedStep (s0, [b])

/-- Embeds `random.sample(l, k)`: raises `ValueError` ("Sample larger than
population") when `k` exceeds the population size, otherwise returns the
`k` elements of `l` selected by the drawn indices `sel` (the randomness of
the draw).  Theorems about the sampled values carry the well-formedness of
`sel` (distinct indices below `l.length`) as hypotheses. -/
def pySample (l : List ℤ) (k : ℕ) (sel : List ℕ) : Except String (List ℤ) :=
  if k ≤ l.length then .ok ((sel.take k).map (fun i => l.getD i 0))
  else .error "Sample larger than population"

/-- Mirrors `_mutate` (source lines 26-41): copy the parent's genes, pick a
random position `ridx` (`random.randrange(0, len(parent.Genes))`), draw two
symbols from the gene set (`random.sample(geneSet, 2)`, drawn indices
`sel`), and write the second iff the first equals the current symbol. -/
def _mutateE (parent : Chromosome) (geneSet : List ℤ) (get_fitness : List ℤ → ℤ)
    (ridx : ℕ) (sel : List ℕ) : Except String Chromosome :=
  match pySample geneSet 2 sel with
  | .error e => .error e
  | .ok sampled =>
    let newGene := sampled.getD 0 0
    let alternate := sampled.getD 1 0
    let childGenes :=
      parent.Genes.set ridx
        (if newGene = parent.Genes.getD ridx 0 then alternate else newGene)
    .ok (mkChromosome childGenes (get_fitness childGenes) Strategies.Mutate)

/-- The `while len(genes) < length` loop of `_generate_parent`
(source lines 18-21), with explicit `fuel` standing in for the number of
loop turns (the source loop can diverge when the gene set is empty;
`.ok none` reports that the fuel ran out with the loop still running).
`sels` supplies the drawn indices of each `random.sample` call in turn. -/
def genParentAux (geneSet : List ℤ) (length : ℕ) :
    List (List ℕ) → List ℤ → ℕ → Except String (Option (List ℤ))
  | _, _, 0 => .ok none
  | sels, genes, fuel + 1 =>
    if genes.length < length then
      match pySample geneSet (min (length - genes.length) geneSet.length) (sels.headD []) with
      | .error e => .error e
      | .ok batch => genParentAux geneSet length sels.tail (genes ++ batch) fuel
    else .ok (some genes)

/-- Mirrors `_generate_parent` (source lines 7-23): build a random genome
of the target length by repeated sampling, then construct a
`Create`-strategy chromosome with its computed fitness. -/
def _generate_parentE (length : ℕ) (geneSet : List ℤ) (get_fitness : List ℤ → ℤ)
    (sels : List (List ℕ)) (fuel : ℕ) : Except String (Option Chromosome) :=
  match genParentAux geneSet length sels [] fuel with
  | .error e => .error e
  | .ok none => .ok none
  | .ok (some genes) => .ok (some (mkChromosome genes (get_fitness genes) Strategies.Create))

/-- Generate `n` parents in sequence via `_generate_parentE` (the first
parent plus the `poolSize - 1` seeding parents of `_get_improvement`). -/
def genMany (length : ℕ) (geneSet : List ℤ) (get_fitness : List ℤ → ℤ) :
    ℕ → List (List (List ℕ)) → ℕ → Except String (Option (List Chromosome))
  | 0, _, _ => .ok (some [])
  | n + 1, selss, fuel =>
    match _generate_parentE length geneSet get_fitness (selss.headD []) fuel with
    | .error e => .error e
    | .ok none => .ok none
    | .ok (some c) =>
      match genMany length geneSet get_fitness n selss.tail fuel with
      | .error e => .error e
      | .ok none => .ok none
      | .ok (some cs) => .ok (some (c :: cs))

/-- Everything `_get_improvement` does before its main loop starts, with
the default `Create` operator (`custom_create is None`): generate
`poolSize` parents (any `random.sample` failure propagates), then run the
seeding phase `initGen`.  Returns the loop-entry state and the chromosomes
yielded before the main loop. -/
def seedPhaseE (length : ℕ) (geneSet : List ℤ) (get_fitness : List ℤ → ℤ)
    (poolSize : ℕ) (selss : List (List (List ℕ))) (fuel : ℕ) (maxAge : Option ℕ) :
    Except String (Option (GenState × List Chromosome)) :=
  match genMany length geneSet get_fitness poolSize selss fuel with
  | .error e => .error e
  | .ok none => .ok none
  | .ok (some []) => .ok none
  | .ok (some (first :: rest)) =>
    .ok (some (initGen (specOf first) (rest.map specOf) maxAge))

/-- Mirrors `_crossover` (source lines 60-71).  `donorDraw` is the value of
`random.randrange(0, len(parents))`; if it equals the current slot `index`
it is advanced cyclically.  On the sentinel (`none`) result of the
caller-supplied `crossover` function, the donor's pool slot is replaced
with the freshly generated chromosome `generated` and the result of
`mutate` applied to `parents[index]` (re-read from the updated pool) is
returned; otherwise a `Crossover`-strategy child is built.  Returns the
updated pool and the returned chromosome. -/
def _crossoverE (parentGenes : List ℤ) (index : ℕ) (parents : List Chromosome)
    (get_fitness : List ℤ → ℤ) (crossover : List ℤ → List ℤ → Option (List ℤ))
    (mutate : Chromosome → Chromosome) (generated : Chromosome) (donorDraw : ℕ) :
    List Chromosome × Chromosome :=
  let donorIndex := if donorDraw = index then (donorDraw + 1) % parents.length else donorDraw
  match crossover parentGenes ((parents.getD donorIndex default).Genes) with
  | none =>
    let parents2 := parents.set donorIndex generated
    (parents2, mutate (parents2.getD index default))
  | some childGenes =>
    (parents, mkChromosome childGenes (get_fitness childGenes) Strategies.Crossover)

/-- The initial `usedStrategies` list of `get_best` (source lines 118-120),
holding the Mutate entry and, when a crossover function is supplied, the
Crossover entry.  Entries are identified by their strategy tags (the source
stores the corresponding `strategyLookup` closures, one per tag). -/
def initUsedStrategies (hasCrossover : Bool) : List Strategies :=
  [Strategies.Mutate] ++ (if hasCrossover then [Strategies.Crossover] else [])

/-- The driver's per-improvement update of `usedStrategies`
(source lines 131-132): `f = strategyLookup[improvement.Strategy];
usedStrategies.append(f)`. -/
def driverAppendStrategy (used : List Strategies) (s : Strategies) : List Strategies :=
  used ++ [s]

/-- The strategy used by `fnNewChild` for one iteration
(source lines 118-126): with a crossover function, `random.choice
(usedStrategies)` — embedded as the element at drawn index `k % length` —
otherwise always the Mutate operator. -/
def fnNewChildStrategy (hasCrossover : Bool) (used : List Strategies) (k : ℕ) : Strategies :=
  if hasCrossover then used.getD (k % used.length) Strategies.Mutate else Strategies.Mutate

/-- The leftmost position at which `x` can be inserted into `a` while
preserving ascending order: every element before it is `< x` and every
element from it on is `≥ x` (the specification's description of the
`index` computed by the Acceptance Policy). -/
def IsLeftmostInsertionPoint (a : List ℤ) (x : ℤ) (i : ℕ) : Prop :=
  i ≤ a.length ∧ (∀ j, j < i → a.getD j 0 < x) ∧
    ∀ j, i ≤ j → j < a.length → x ≤ a.getD j 0

/-- Invariant of the `_get_improvement` state relative to the list `ys` of
all chromosomes yielded so far: the global-best id is a valid heap id, the
ledger records exactly the fitnesses of the yields, is strictly ascending,
and ends with the global best's fitness. -/
def GenInv (s : GenState) (ys : List Chromosome) : Prop :=
  s.bestId < s.store.length ∧
  s.hist = ys.map (·.Fitness) ∧
  List.Chain' (· < ·) s.hist ∧
  s.hist.getLast? = some (s.store.getD s.bestId default).Fitness

/-- Invariant of the hill-climbing configuration (`poolSize = 1`,
`maxAge = None`, no crossover): the pool is the single slot 0, the cursor
always resolves to it, ids are valid, and the slot's fitness equals the
global best's fitness. -/
def HCInv (s : GenState) : Prop :=
  s.pool.length = 1 ∧ s.lastParentIndex = 0 ∧ s.pindex ≤ 1 ∧ s.maxAge = none ∧
  s.bestId < s.store.length ∧ s.pool.getD 0 0 < s.store.length ∧
  (s.store.getD s.bestId default).Fitness = (s.store.getD (s.pool.getD 0 0) default).Fitness

/-! ### List helper lemmas -/

theorem getD_set_eq {α : Type _} (l : List α) (i : ℕ) (c d : α) (h : i < l.length) :
    (l.set i c).getD i d = c := by
  rw [List.getD_eq_getElem _ _ (by simpa using h)]
  exact List.getElem_set_self _

theorem getD_set_ne {α : Type _} (l : List α) (i j : ℕ) (c d : α) (h : i ≠ j) :
    (l.set i c).getD j d = l.getD j d := by
  by_cases hj : j < l.length
  · rw [List.getD_eq_getElem _ _ (by simpa using hj), List.getD_eq_getElem _ _ hj]
    exact List.getElem_set_ne h _
  · rw [List.getD_eq_default _ _ (by simpa using le_of_not_lt hj),
      List.getD_eq_default _ _ (le_of_not_lt hj)]

theorem getD_append_self {α : Type _} (l : List α) (c d : α) :
    (l ++ [c]).getD l.length d = c := by
  rw [List.getD_append_right _ _ _ _ le_rfl]
  simp

theorem getD_set_fitness (l : List Chromosome) (j i : ℕ) (c : Chromosome)
    (hF : c.Fitness = (l.getD j default).Fitness) :
    ((l.set j c).getD i default).Fitness = (l.getD i default).Fitness := by
  by_cases hij : j = i
  · subst hij
    by_cases hj : j < l.length
    · rw [getD_set_eq _ _ _ _ hj, hF]
    · rw [List.set_eq_of_length_le (le_of_not_lt hj)]
  · rw [getD_set_ne _ _ _ _ _ hij]

/-! ### Heap-shape lemmas for one step -/

theorem storeAfterChild_getD (s : GenState) (inp : StepInput) (i : ℕ)
    (h : i < s.store.length) :
    (storeAfterChild s inp).getD i default = s.store.getD i default := by
  cases hI : inp.donorReplace with
  | none =>
    simp only [storeAfterChild, hI]
    exact List.getD_append _ _ _ _ h
  | some ds =>
    obtain ⟨d, spec⟩ := ds
    simp only [storeAfterChild, hI]
    rw [List.getD_append _ _ _ _ (by simp; omega), List.getD_append _ _ _ _ h]

theorem childIdOf_lt (s : GenState) (inp : StepInput) :
    childIdOf s inp < (storeAfterChild s inp).length := by
  cases hI : inp.donorReplace with
  | none => simp [childIdOf, storeAfterChild, hI]
  | some ds =>
    obtain ⟨d, spec⟩ := ds
    simp [childIdOf, storeAfterChild, hI]

theorem store_length_le_childId (s : GenState) (inp : StepInput) :
    s.store.length ≤ childIdOf s inp := by
  cases hI : inp.donorReplace with
  | none => simp [childIdOf, hI]
  | some ds => simp [childIdOf, hI]

theorem storeAfterChild_getD_childId (s : GenState) (inp : StepInput) :
    (storeAfterChild s inp).getD (childIdOf s inp) default = mkChrom inp.child := by
  cases hI : inp.donorReplace with
  | none =>
    simp only [childIdOf, storeAfterChild, hI]
    exact getD_append_self _ _ _
  | some ds =>
    obtain ⟨d, spec⟩ := ds
    simp only [childIdOf, storeAfterChild, hI]
    rw [show s.store.length + 1 = (s.store ++ [mkChrom spec]).length by simp]
    exact getD_append_self _ _ _

theorem poolAfterChild_length (s : GenState) (inp : StepInput) :
    (poolAfterChild s inp).length = s.pool.length := by
  cases hI : inp.donorReplace with
  | none => simp [poolAfterChild, hI]
  | some ds =>
    obtain ⟨d, spec⟩ := ds
    simp [poolAfterChild, hI]

/-! ### Correctness of the embedded `bisect_left` -/

theorem sorted_getD_mono (a : List ℤ) (hs : List.Sorted (· ≤ ·) a) (i j : ℕ)
    (hij : i ≤ j) (hj : j < a.length) : a.getD i 0 ≤ a.getD j 0 := by
  rcases eq_or_lt_of_le hij with rfl | hlt
  · exact le_rfl
  · rw [List.getD_eq_getElem _ _ (lt_trans hlt hj), List.getD_eq_getElem _ _ hj]
    exact (List.pairwise_iff_getElem.mp hs) i j (lt_trans hlt hj) hj hlt

theorem bisect_left_spec (a : List ℤ) (x : ℤ) (hs : List.Sorted (· ≤ ·) a) :
    ∀ n lo hi, hi - lo ≤ n → lo ≤ hi → hi ≤ a.length →
      (∀ j, j < lo → a.getD j 0 < x) →
      (∀ j, hi ≤ j → j < a.length → ¬ a.getD j 0 < x) →
      lo ≤ bisect_left a x lo hi ∧ bisect_left a x lo hi ≤ hi ∧
      (∀ j, j < bisect_left a x lo hi → a.getD j 0 < x) ∧
      (∀ j, bisect_left a x lo hi ≤ j → j < a.length → ¬ a.getD j 0 < x) := by
  intro n
  induction n with
  | zero =>
    intro lo hi hn hle hha hlow hhigh
    have heq : lo = hi := by omega
    rw [bisect_left, if_neg (by omega)]
    subst heq
    exact ⟨le_rfl, le_rfl, hlow, hhigh⟩
  | succ n ih =>
    intro lo hi hn hle hha hlow hhigh
    by_cases hlh : lo < hi
    · rw [bisect_left, if_pos hlh]
      have hmlo : lo ≤ (lo + hi) / 2 := by omega
      have hmhi : (lo + hi) / 2 < hi := by omega
      by_cases hm : a.getD ((lo + hi) / 2) 0 < x
      · rw [if_pos hm]
        refine ih ((lo + hi) / 2 + 1) hi (by omega) (by omega) hha ?_ hhigh |>.imp
          (fun h1 => by omega) (fun h => h)
        intro j hj
        exact lt_of_le_of_lt (sorted_getD_mono a hs j ((lo + hi) / 2) (by omega) (by omega)) hm
      · rw [if_neg hm]
        refine (ih lo ((lo + hi) / 2) (by omega) (by omega) (by omega) hlow ?_).imp
          (fun h => h) (fun h => h.imp (fun h2 => by omega) (fun h => h))
        intro j hmj hjlen hcon
        exact hm (lt_of_le_of_lt (sorted_getD_mono a hs ((lo + hi) / 2) j hmj hjlen) hcon)
    · rw [bisect_left, if_neg hlh]
      have heq : lo = hi := by omega
      refine ⟨le_rfl, by omega, hlow, ?_⟩
      intro j hj hjl
      exact hhigh j (by omega) hjl

theorem bisect_left_leftmost (a : List ℤ) (x : ℤ) (hs : List.Sorted (· ≤ ·) a) :
    IsLeftmostInsertionPoint a x (bisect_left a x 0 a.length) := by
  obtain ⟨_, h2, h3, h4⟩ := bisect_left_spec a x hs a.length 0 a.length (by omega) (by omega)
    le_rfl (by omega) (fun j hj hjl => absurd hjl (by omega))
  exact ⟨h2, h3, fun j hij hjl => not_lt.mp (h4 j hij hjl)⟩

theorem store_le_storeAfterChild (s : GenState) (inp : StepInput) :
    s.store.length ≤ (storeAfterChild s inp).length :=
  le_trans (store_length_le_childId s inp) (le_of_lt (childIdOf_lt s inp))

/-! ### Branch equations for `stepGen` -/

theorem stepGen_eq_worse_none (s : GenState) (inp : StepInput) (b : Bool)
    (h1 : (parentOf s).Fitness > (mkChrom inp.child).Fitness) (hMA : s.maxAge = none) :
    stepGen s inp b =
      ({ s with store := storeAfterChild s inp, pool := poolAfterChild s inp,
                pindex := pEff s }, none) := by
  simp only [stepGen, hMA]
  rw [if_pos h1]

theorem stepGen_eq_worse_young (s : GenState) (inp : StepInput) (b : Bool) (m : ℕ)
    (h1 : (parentOf s).Fitness > (mkChrom inp.child).Fitness) (hMA : s.maxAge = some m)
    (h2 : m > (parentOf s).Age + 1) :
    stepGen s inp b =
      ({ s with store := agedStore s inp, pool := poolAfterChild s inp,
                pindex := pEff s }, none) := by
  simp only [stepGen, hMA]
  rw [if_pos h1, if_pos h2]
  rfl

theorem stepGen_eq_worse_accept (s : GenState) (inp : StepInput) (m : ℕ)
    (h1 : (parentOf s).Fitness > (mkChrom inp.child).Fitness) (hMA : s.maxAge = some m)
    (h2 : ¬ m > (parentOf s).Age + 1) :
    stepGen s inp true =
      ({ s with store := agedStore s inp,
                pool := (poolAfterChild s inp).set (pEff s) (childIdOf s inp),
                pindex := pEff s }, none) := by
  simp only [stepGen, hMA]
  rw [if_pos h1, if_neg h2, if_pos trivial]
  rfl

theorem stepGen_eq_worse_reject (s : GenState) (inp : StepInput) (m : ℕ)
    (h1 : (parentOf s).Fitness > (mkChrom inp.child).Fitness) (hMA : s.maxAge = some m)
    (h2 : ¬ m > (parentOf s).Age + 1) :
    stepGen s inp false =
      ({ s with store := (agedStore s inp).set s.bestId
                  { (agedStore s inp).getD s.bestId default with Age := 0 },
                pool := (poolAfterChild s inp).set (pEff s) s.bestId,
                pindex := pEff s }, none) := by
  simp only [stepGen, hMA]
  rw [if_pos h1, if_neg h2, if_neg (by simp)]
  rfl

theorem stepGen_eq_equal (s : GenState) (inp : StepInput) (b : Bool)
    (h1 : ¬ (parentOf s).Fitness > (mkChrom inp.child).Fitness)
    (h2 : ¬ (mkChrom inp.child).Fitness > (parentOf s).Fitness) :
    stepGen s inp b =
      ({ s with store := (storeAfterChild s inp).set (childIdOf s inp)
                  { mkChrom inp.child with Age := (parentOf s).Age + 1 },
                pool := (poolAfterChild s inp).set (pEff s) (childIdOf s inp),
                pindex := pEff s }, none) := by
  simp only [stepGen]
  rw [if_neg h1, if_pos h2]

theorem stepGen_eq_better_nobest (s : GenState) (inp : StepInput) (b : Bool)
    (h1 : ¬ (parentOf s).Fitness > (mkChrom inp.child).Fitness)
    (h2 : (mkChrom inp.child).Fitness > (parentOf s).Fitness)
    (h3 : ¬ ({ mkChrom inp.child with Age := 0 } : Chromosome).Fitness >
        ((storeAfterChild s inp).getD s.bestId default).Fitness) :
    stepGen s inp b =
      ({ s with store := (storeAfterChild s inp).set (childIdOf s inp)
                  { mkChrom inp.child with Age := 0 },
                pool := (poolAfterChild s inp).set (pEff s) (childIdOf s inp),
                pindex := pEff s }, none) := by
  simp only [stepGen]
  rw [if_neg h1, if_neg (not_not_intro h2), if_neg h3]

theorem stepGen_eq_better_yield (s : GenState) (inp : StepInput) (b : Bool)
    (h1 : ¬ (parentOf s).Fitness > (mkChrom inp.child).Fitness)
    (h2 : (mkChrom inp.child).Fitness > (parentOf s).Fitness)
    (h3 : ({ mkChrom inp.child with Age := 0 } : Chromosome).Fitness >
        ((storeAfterChild s inp).getD s.bestId default).Fitness) :
    stepGen s inp b =
      ({ s with store := (storeAfterChild s inp).set (childIdOf s inp)
                  { mkChrom inp.child with Age := 0 },
                pool := (poolAfterChild s inp).set (pEff s) (childIdOf s inp),
                pindex := pEff s, bestId := childIdOf s inp,
                hist := s.hist ++ [({ mkChrom inp.child with Age := 0 } : Chromosome).Fitness] },
        some { mkChrom inp.child with Age := 0 }) := by
  simp only [stepGen]
  rw [if_neg h1, if_neg (not_not_intro h2), if_pos h3]

/-! ### Invariant preservation -/

theorem aged_set_preserves_best (s : GenState) (inp : StepInput)
    (hbid : s.bestId < s.store.length) :
    ((agedStore s inp).getD s.bestId default).Fitness
      = (s.store.getD s.bestId default).Fitness := by
  unfold agedStore
  by_cases hp : parentIdOf s = s.bestId
  · have hlt : s.bestId < (storeAfterChild s inp).length :=
      lt_of_lt_of_le hbid (store_le_storeAfterChild s inp)
    rw [hp, getD_set_eq _ _ _ _ hlt]
    show (parentOf s).Fitness = _
    rw [parentOf, hp]
  · rw [getD_set_ne _ _ _ _ _ hp, storeAfterChild_getD _ _ _ hbid]

theorem agedStore_length (s : GenState) (inp : StepInput) :
    (agedStore s inp).length = (storeAfterChild s inp).length := by
  simp [agedStore]

theorem stepGen_inv (s : GenState) (inp : StepInput) (b : Bool) (ys : List Chromosome)
    (h : GenInv s ys) :
    GenInv (stepGen s inp b).1 (ys ++ (stepGen s inp b).2.toList) := by
  obtain ⟨hbid, hmap, hchain, hlast⟩ := h
  have hbid2 : s.bestId < (storeAfterChild s inp).length :=
    lt_of_lt_of_le hbid (store_le_storeAfterChild s inp)
  by_cases h1 : (parentOf s).Fitness > (mkChrom inp.child).Fitness
  · cases hMA : s.maxAge with
    | none =>
      rw [stepGen_eq_worse_none s inp b h1 hMA]
      refine ⟨hbid2, by simpa using hmap, hchain, ?_⟩
      show s.hist.getLast? = some ((storeAfterChild s inp).getD s.bestId default).Fitness
      rw [storeAfterChild_getD s inp _ hbid]
      exact hlast
    | some m =>
      by_cases h2 : m > (parentOf s).Age + 1
      · rw [stepGen_eq_worse_young s inp b m h1 hMA h2]
        refine ⟨by rw [agedStore_length]; exact hbid2, by simpa using hmap, hchain, ?_⟩
        show s.hist.getLast? = some ((agedStore s inp).getD s.bestId default).Fitness
        rw [aged_set_preserves_best s inp hbid]
        exact hlast
      · cases b with
        | true =>
          rw [stepGen_eq_worse_accept s inp m h1 hMA h2]
          refine ⟨by rw [agedStore_length]; exact hbid2, by simpa using hmap, hchain, ?_⟩
          show s.hist.getLast? = some ((agedStore s inp).getD s.bestId default).Fitness
          rw [aged_set_preserves_best s inp hbid]
          exact hlast
        | false =>
          rw [stepGen_eq_worse_reject s inp m h1 hMA h2]
          have hblen : s.bestId < (agedStore s inp).length := by
            rw [agedStore_length]; exact hbid2
          refine ⟨by simpa using hblen, by simpa using hmap, hchain, ?_⟩
          show s.hist.getLast? = some
            (((agedStore s inp).set s.bestId
              { (agedStore s inp).getD s.bestId default with Age := 0 }).getD
                s.bestId default).Fitness
          rw [getD_set_eq _ _ _ _ hblen]
          show s.hist.getLast? = some ((agedStore s inp).getD s.bestId default).Fitness
          rw [aged_set_preserves_best s inp hbid]
          exact hlast
  · by_cases h2 : (mkChrom inp.child).Fitness > (parentOf s).Fitness
    · by_cases h3 : ({ mkChrom inp.child with Age := 0 } : Chromosome).Fitness >
          ((storeAfterChild s inp).getD s.bestId default).Fitness
      · rw [stepGen_eq_better_yield s inp b h1 h2 h3]
        have hcid : childIdOf s inp < (storeAfterChild s inp).length := childIdOf_lt s inp
        refine ⟨by simpa using hcid, ?_, ?_, ?_⟩
        · show s.hist ++ [({ mkChrom inp.child with Age := 0 } : Chromosome).Fitness]
            = (ys ++ [({ mkChrom inp.child with Age := 0 } : Chromosome)]).map (·.Fitness)
          rw [List.map_append, ← hmap]
          rfl
        · show List.Chain' (· < ·)
            (s.hist ++ [({ mkChrom inp.child with Age := 0 } : Chromosome).Fitness])
          rw [List.chain'_append]
          refine ⟨hchain, List.chain'_singleton _, ?_⟩
          intro x hx y hy
          rw [hlast, Option.mem_some_iff] at hx
          simp only [List.head?_cons, Option.mem_some_iff] at hy
          rw [← hx, ← hy]
          rw [storeAfterChild_getD s inp _ hbid] at h3
          exact h3
        · show (s.hist ++ [({ mkChrom inp.child with Age := 0 } : Chromosome).Fitness]).getLast?
            = some (((storeAfterChild s inp).set (childIdOf s inp)
                { mkChrom inp.child with Age := 0 }).getD (childIdOf s inp) default).Fitness
          rw [getD_set_eq _ _ _ _ hcid]
          simp
      · rw [stepGen_eq_better_nobest s inp b h1 h2 h3]
        refine ⟨by simpa using hbid2, by simpa using hmap, hchain, ?_⟩
        have hF : ({ mkChrom inp.child with Age := 0 } : Chromosome).Fitness
            = ((storeAfterChild s inp).getD (childIdOf s inp) default).Fitness := by
          rw [storeAfterChild_getD_childId]
        show s.hist.getLast? = some
          (((storeAfterChild s inp).set (childIdOf s inp)
            { mkChrom inp.child with Age := 0 }).getD s.bestId default).Fitness
        rw [getD_set_fitness _ _ _ _ hF, storeAfterChild_getD s inp _ hbid]
        exact hlast
    · rw [stepGen_eq_equal s inp b h1 h2]
      refine ⟨by simpa using hbid2, by simpa using hmap, hchain, ?_⟩
      have hF : ({ mkChrom inp.child with Age := (parentOf s).Age + 1 } : Chromosome).Fitness
          = ((storeAfterChild s inp).getD (childIdOf s inp) default).Fitness := by
        rw [storeAfterChild_getD_childId]
      show s.hist.getLast? = some
        (((storeAfterChild s inp).set (childIdOf s inp)
          { mkChrom inp.child with Age := (parentOf s).Age + 1 }).getD s.bestId default).Fitness
      rw [getD_set_fitness _ _ _ _ hF, storeAfterChild_getD s inp _ hbid]
      exact hlast

theorem runGen_inv (inps : List (StepInput × Bool)) :
    ∀ s ys, GenInv s ys → GenInv (runGen s inps).1 (ys ++ (runGen s inps).2) := by
  induction inps with
  | nil => intro s ys h; simpa [runGen] using h
  | cons ib rest ih =>
    intro s ys h
    have h2 := ih (stepGen s ib.1 ib.2).1 _ (stepGen_inv s ib.1 ib.2 ys h)
    simpa [runGen, List.append_assoc] using h2

theorem seedStep_inv (acc : GenState × List Chromosome) (spec : ChildSpec)
    (h : GenInv acc.1 acc.2) : GenInv (seedStep acc spec).1 (seedStep acc spec).2 := by
  obtain ⟨hbid, hmap, hchain, hlast⟩ := h
  by_cases hf : (mkChrom spec).Fitness > (acc.1.store.getD acc.1.bestId default).Fitness
  · rw [show seedStep acc spec =
        ({ acc.1 with store := acc.1.store ++ [mkChrom spec],
                      pool := acc.1.pool ++ [acc.1.store.length],
                      bestId := acc.1.store.length,
                      hist := acc.1.hist ++ [(mkChrom spec).Fitness] }, acc.2 ++ [mkChrom spec])
      from by simp only [seedStep]; rw [if_pos hf]]
    refine ⟨by simp, by simp [hmap], ?_, ?_⟩
    · show List.Chain' (· < ·) (acc.1.hist ++ [(mkChrom spec).Fitness])
      rw [List.chain'_append]
      refine ⟨hchain, List.chain'_singleton _, ?_⟩
      intro x hx y hy
      rw [hlast, Option.mem_some_iff] at hx
      simp only [List.head?_cons, Option.mem_some_iff] at hy
      rw [← hx, ← hy]
      exact hf
    · show (acc.1.hist ++ [(mkChrom spec).Fitness]).getLast? = some
        ((acc.1.store ++ [mkChrom spec]).getD acc.1.store.length default).Fitness
      rw [getD_append_self]
      simp
  · rw [show seedStep acc spec =
        ({ acc.1 with store := acc.1.store ++ [mkChrom spec],
                      pool := acc.1.pool ++ [acc.1.store.length] }, acc.2)
      from by simp only [seedStep]; rw [if_neg hf]]
    refine ⟨by simp; omega, hmap, hchain, ?_⟩
    show acc.1.hist.getLast? = some
      ((acc.1.store ++ [mkChrom spec]).getD acc.1.bestId default).Fitness
    rw [List.getD_append _ _ _ _ hbid]
    exact hlast

theorem foldl_seedStep_inv (seeds : List ChildSpec) :
    ∀ acc, GenInv acc.1 acc.2 →
      GenInv (seeds.foldl seedStep acc).1 (seeds.foldl seedStep acc).2 := by
  induction seeds with
  | nil => intro acc h; simpa using h
  | cons sp rest ih =>
    intro acc h
    rw [List.foldl_cons]
    exact ih _ (seedStep_inv acc sp h)

theorem initGen_inv (first : ChildSpec) (seeds : List ChildSpec) (maxAge : Option ℕ) :
    GenInv (initGen first seeds maxAge).1 (initGen first seeds maxAge).2 := by
  unfold initGen
  apply foldl_seedStep_inv
  exact ⟨by simp, rfl, List.chain'_singleton _, rfl⟩


/-! ### C1 and C9 -/

/-- Claim C1: for every run and every configuration, the sequence of
chromosomes yielded by `_get_improvement` — the unconditional first yield,
the seeding-phase yields and the main-loop yields, over any realization of
the randomness oracles — has strictly increasing fitness: every yielded
candidate's fitness strictly exceeds the fitness of every previously
yielded one.  The Historical Fitness Ledger records exactly the fitnesses
of the yields, one append per yield, and is strictly ascending; since every
prefix of the oracle-input list is itself a run, the ledger is strictly
ascending after every append. -/
theorem C1_yields_strictly_increasing (first : ChildSpec) (seeds : List ChildSpec)
    (maxAge : Option ℕ) (inps : List (StepInput × Bool)) :
    (runGen (initGen first seeds maxAge).1 inps).1.hist
        = ((initGen first seeds maxAge).2
            ++ (runGen (initGen first seeds maxAge).1 inps).2).map (·.Fitness)
    ∧ List.Chain' (· < ·) (runGen (initGen first seeds maxAge).1 inps).1.hist
    ∧ List.Pairwise (fun a c => a.Fitness < c.Fitness)
        ((initGen first seeds maxAge).2
          ++ (runGen (initGen first seeds maxAge).1 inps).2) := by
  obtain ⟨_, hmap, hchain, _⟩ :=
    runGen_inv inps _ _ (initGen_inv first seeds maxAge)
  refine ⟨hmap, hchain, ?_⟩
  have hpw := List.chain'_iff_pairwise.mp hchain
  rw [hmap] at hpw
  exact List.pairwise_map.mp hpw

/-- Claim C9: for every configuration and every reachable state of the
generator, the Historical Fitness Ledger is non-empty (it is seeded with
the first parent's fitness before the main loop starts), so the rational
denominator `len(historicalFitnesses)` in the `proportionSimilar` division
of the annealing branch is never zero. -/
theorem C9_ledger_nonempty (first : ChildSpec) (seeds : List ChildSpec)
    (maxAge : Option ℕ) (inps : List (StepInput × Bool)) :
    (runGen (initGen first seeds maxAge).1 inps).1.hist ≠ []
    ∧ (((runGen (initGen first seeds maxAge).1 inps).1.hist.length : ℚ)) ≠ 0 := by
  obtain ⟨_, _, _, hlast⟩ :=
    runGen_inv inps _ _ (initGen_inv first seeds maxAge)
  have hne : (runGen (initGen first seeds maxAge).1 inps).1.hist ≠ [] := by
    intro he
    rw [he] at hlast
    simp at hlast
  refine ⟨hne, ?_⟩
  have : (runGen (initGen first seeds maxAge).1 inps).1.hist.length ≠ 0 := by
    simpa [List.length_eq_zero] using hne
  exact_mod_cast Nat.cast_ne_zero.mpr this

/-! ### The annealing branch: C3, C4, C10 -/

theorem poolAfterChild_none (s : GenState) (inp : StepInput) (h : inp.donorReplace = none) :
    poolAfterChild s inp = s.pool := by
  simp [poolAfterChild, h]

theorem childIdOf_none (s : GenState) (inp : StepInput) (h : inp.donorReplace = none) :
    childIdOf s inp = s.store.length := by
  simp [childIdOf, h]

theorem aged_preserves_genes (s : GenState) (inp : StepInput)
    (hbid : s.bestId < s.store.length) :
    ((agedStore s inp).getD s.bestId default).Genes
      = (s.store.getD s.bestId default).Genes := by
  unfold agedStore
  by_cases hp : parentIdOf s = s.bestId
  · have hlt : s.bestId < (storeAfterChild s inp).length :=
      lt_of_lt_of_le hbid (store_le_storeAfterChild s inp)
    rw [hp, getD_set_eq _ _ _ _ hlt]
    show (parentOf s).Genes = _
    rw [parentOf, hp]
  · rw [getD_set_ne _ _ _ _ _ hp, storeAfterChild_getD _ _ _ hbid]

theorem proportionSimilar_cast (hist : List ℤ) (f : ℤ)
    (hle : bisect_left hist f 0 hist.length ≤ hist.length) :
    proportionSimilar hist f
      = ((hist.length : ℚ) - (bisect_left hist f 0 hist.length : ℚ)) / (hist.length : ℚ) := by
  unfold proportionSimilar
  rw [Nat.cast_sub hle]

/-- Claim C3: when a maximum age is configured, the child is worse than the
parent, and the parent's incremented age has reached the maximum, the engine
computes the leftmost insertion point of the child's fitness in the
Historical Fitness Ledger by binary search over the entire ledger, sets
`proportionSimilar = (ledgerLength - index) / ledgerLength`, and accepts the
child into the pool slot exactly when the drawn uniform number is below
`exp(-proportionSimilar)`.  `b` is the branch taken by the source's draw,
tied to the drawn value by `hb`; the slot holds the freshly allocated child
(object id `s.store.length`) iff the drawn value is below the threshold. -/
theorem C3_anneal_acceptance
    (s : GenState) (inp : StepInput) (b : Bool) (draw : ℚ) (m : ℕ)
    (hsorted : List.Sorted (· ≤ ·) s.hist)
    (hmax : s.maxAge = some m)
    (hworse : (parentOf s).Fitness > (mkChrom inp.child).Fitness)
    (hage : ¬ m > (parentOf s).Age + 1)
    (hdonor : inp.donorReplace = none)
    (hb : b = true ↔ annealAccepts s.hist inp.child.Fitness draw)
    (hp : pEff s < s.pool.length)
    (hbid : s.bestId < s.store.length) :
    IsLeftmostInsertionPoint s.hist inp.child.Fitness
      (bisect_left s.hist inp.child.Fitness 0 s.hist.length)
    ∧ ((stepGen s inp b).1.pool.getD (pEff s) 0 = s.store.length
        ↔ (draw : ℝ) < Real.exp (-((((s.hist.length : ℚ)
            - (bisect_left s.hist inp.child.Fitness 0 s.hist.length : ℚ))
            / (s.hist.length : ℚ) : ℚ) : ℝ))) := by
  have hlip := bisect_left_leftmost s.hist inp.child.Fitness hsorted
  have hcast : annealAccepts s.hist inp.child.Fitness draw
      ↔ (draw : ℝ) < Real.exp (-((((s.hist.length : ℚ)
          - (bisect_left s.hist inp.child.Fitness 0 s.hist.length : ℚ))
          / (s.hist.length : ℚ) : ℚ) : ℝ)) := by
    unfold annealAccepts
    rw [proportionSimilar_cast s.hist inp.child.Fitness hlip.1]
  refine ⟨hlip, ?_⟩
  cases b with
  | true =>
    rw [stepGen_eq_worse_accept s inp m hworse hmax hage]
    refine iff_of_true ?_ (hcast.mp (hb.mp rfl))
    show ((poolAfterChild s inp).set (pEff s) (childIdOf s inp)).getD (pEff s) 0
      = s.store.length
    rw [poolAfterChild_none s inp hdonor, getD_set_eq _ _ _ _ hp,
      childIdOf_none s inp hdonor]
  | false =>
    rw [stepGen_eq_worse_reject s inp m hworse hmax hage]
    have hslot : ((poolAfterChild s inp).set (pEff s) s.bestId).getD (pEff s) 0
        = s.bestId := by
      rw [poolAfterChild_none s inp hdonor, getD_set_eq _ _ _ _ hp]
    refine iff_of_false (fun hc => ?_) (fun hc => ?_)
    · have hc2 : ((poolAfterChild s inp).set (pEff s) s.bestId).getD (pEff s) 0
          = s.store.length := hc
      have hc3 : s.bestId = s.store.length := hslot.symm.trans hc2
      omega
    · exact Bool.false_ne_true (hb.mpr (hcast.mpr hc))

/-- Witness for C3 at a concrete reachable state: strictly ascending ledger
`[5, 9]`, single-slot pool holding a parent of fitness 5 and age 0,
`maxAge = 1`, a worse child of fitness 1, and an accepting draw of 0. -/
theorem C3_anneal_acceptance_witness :
    annealAccepts [5, 9] 1 0 ∧
    (IsLeftmostInsertionPoint [5, 9] 1 (bisect_left [5, 9] 1 0 2)
     ∧ ((stepGen ⟨[⟨[0], 5, Strategies.Create, 0⟩, ⟨[1], 9, Strategies.Create, 0⟩],
            [0], [5, 9], 1, 1, 0, some 1⟩
          ⟨⟨[2], 1, Strategies.Mutate⟩, none⟩ true).1.pool.getD
            (pEff ⟨[⟨[0], 5, Strategies.Create, 0⟩, ⟨[1], 9, Strategies.Create, 0⟩],
              [0], [5, 9], 1, 1, 0, some 1⟩) 0 = 2
        ↔ ((0 : ℚ) : ℝ) < Real.exp (-(((((2 : ℕ) : ℚ)
            - (bisect_left [5, 9] 1 0 2 : ℚ)) / ((2 : ℕ) : ℚ) : ℚ) : ℝ)))) := by
  have hAcc : annealAccepts [5, 9] 1 0 := by
    show ((0 : ℚ) : ℝ) < Real.exp _
    rw [Rat.cast_zero]
    exact Real.exp_pos _
  exact ⟨hAcc,
    C3_anneal_acceptance
      ⟨[⟨[0], 5, Strategies.Create, 0⟩, ⟨[1], 9, Strategies.Create, 0⟩],
        [0], [5, 9], 1, 1, 0, some 1⟩
      ⟨⟨[2], 1, Strategies.Mutate⟩, none⟩ true 0 1
      (by decide) rfl (by decide) (by decide) rfl
      (iff_of_true rfl hAcc) (by decide) (by decide)⟩

theorem anneal_reject_draw_one : ¬ annealAccepts [5, 10] 1 1 := by
  have hbis : bisect_left [5, 10] 1 0 2 = 0 := by
    rw [bisect_left]
    norm_num
    rw [bisect_left]
    norm_num
    rw [bisect_left]
    norm_num
  have hps : proportionSimilar [5, 10] 1 = 1 := by
    unfold proportionSimilar
    simp only [List.length_cons, List.length_nil]
    rw [hbis]
    norm_num
  unfold annealAccepts
  rw [hps]
  intro hc
  push_cast at hc
  have h2 : Real.exp (-(1 : ℝ)) < 1 := by
    have h3 := Real.exp_lt_exp.mpr (show (-(1 : ℝ)) < 0 by norm_num)
    rwa [Real.exp_zero] at h3
  linarith

/-- Claim C4 as stated is false: after an annealing rejection the pool slot
is not filled with a *copy* of the Global Best — it is assigned the Global
Best object itself (`parents[pindex] = bestParent`), so the slot aliases
the Global Best.  Concretely: parent of fitness 5 and age 3 in slot 0,
Global Best of fitness 10 at heap id 1, ledger `[5, 10]`, `maxAge = 1`,
child of fitness 1, rejecting draw 1 (`1 < exp(-1)` is false since
`exp(-1) < 1`): after the step, slot 0 holds exactly the heap id of the
Global Best. -/
theorem C4_pool_slot_aliases_best_counterexample :
    ¬ annealAccepts [5, 10] 1 1 ∧
    ((stepGen ⟨[⟨[0], 5, Strategies.Create, 3⟩, ⟨[1], 10, Strategies.Create, 0⟩],
        [0], [5, 10], 1, 1, 0, some 1⟩
      ⟨⟨[2], 1, Strategies.Mutate⟩, none⟩ false).1.pool.getD 0 0
      = (stepGen ⟨[⟨[0], 5, Strategies.Create, 3⟩, ⟨[1], 10, Strategies.Create, 0⟩],
          [0], [5, 10], 1, 1, 0, some 1⟩
        ⟨⟨[2], 1, Strategies.Mutate⟩, none⟩ false).1.bestId) := by
  constructor
  · exact anneal_reject_draw_one
  · decide

/-- Claim C4, amended: when the annealing probability check rejects the
child, the evicted slot is filled with the Global Best object *itself*
(the slot aliases the Global Best rather than holding a distinct copy),
with the Global Best's age reset to 0 and its genes and fitness unchanged;
the ledger, the Global Best reference, every other pool slot and the pool
size are unchanged, and nothing is yielded. -/
theorem C4_anneal_reject_installs_best
    (s : GenState) (inp : StepInput) (draw : ℚ) (m : ℕ)
    (hmax : s.maxAge = some m)
    (hworse : (parentOf s).Fitness > (mkChrom inp.child).Fitness)
    (hage : ¬ m > (parentOf s).Age + 1)
    (hdonor : inp.donorReplace = none)
    (hrej : ¬ annealAccepts s.hist inp.child.Fitness draw)
    (hp : pEff s < s.pool.length)
    (hbid : s.bestId < s.store.length) :
    (stepGen s inp false).2 = none
    ∧ (stepGen s inp false).1.pool.getD (pEff s) 0 = s.bestId
    ∧ (stepGen s inp false).1.bestId = s.bestId
    ∧ ((stepGen s inp false).1.store.getD s.bestId default).Age = 0
    ∧ ((stepGen s inp false).1.store.getD s.bestId default).Genes
        = (s.store.getD s.bestId default).Genes
    ∧ ((stepGen s inp false).1.store.getD s.bestId default).Fitness
        = (s.store.getD s.bestId default).Fitness
    ∧ (stepGen s inp false).1.hist = s.hist
    ∧ (∀ j, j ≠ pEff s → (stepGen s inp false).1.pool.getD j 0 = s.pool.getD j 0)
    ∧ (stepGen s inp false).1.pool.length = s.pool.length := by
  rw [stepGen_eq_worse_reject s inp m hworse hmax hage]
  have hblen : s.bestId < (agedStore s inp).length := by
    rw [agedStore_length]
    exact lt_of_lt_of_le hbid (store_le_storeAfterChild s inp)
  refine ⟨rfl, ?_, rfl, ?_, ?_, ?_, rfl, ?_, ?_⟩
  · show ((poolAfterChild s inp).set (pEff s) s.bestId).getD (pEff s) 0 = s.bestId
    rw [poolAfterChild_none s inp hdonor, getD_set_eq _ _ _ _ hp]
  · show (((agedStore s inp).set s.bestId
      { (agedStore s inp).getD s.bestId default with Age := 0 }).getD s.bestId default).Age = 0
    rw [getD_set_eq _ _ _ _ hblen]
  · show (((agedStore s inp).set s.bestId
      { (agedStore s inp).getD s.bestId default with Age := 0 }).getD s.bestId default).Genes
      = (s.store.getD s.bestId default).Genes
    rw [getD_set_eq _ _ _ _ hblen]
    show ((agedStore s inp).getD s.bestId default).Genes = _
    exact aged_preserves_genes s inp hbid
  · show (((agedStore s inp).set s.bestId
      { (agedStore s inp).getD s.bestId default with Age := 0 }).getD s.bestId default).Fitness
      = (s.store.getD s.bestId default).Fitness
    rw [getD_set_eq _ _ _ _ hblen]
    show ((agedStore s inp).getD s.bestId default).Fitness = _
    exact aged_set_preserves_best s inp hbid
  · intro j hj
    show ((poolAfterChild s inp).set (pEff s) s.bestId).getD j 0 = s.pool.getD j 0
    rw [poolAfterChild_none s inp hdonor, getD_set_ne _ _ _ _ _ (fun e => hj e.symm)]
  · show ((poolAfterChild s inp).set (pEff s) s.bestId).length = s.pool.length
    rw [poolAfterChild_none s inp hdonor, List.length_set]

/-- Witness for the amended C4 at the counterexample state. -/
theorem C4_anneal_reject_installs_best_witness :
    ¬ annealAccepts [5, 10] 1 1 ∧
    ((stepGen ⟨[⟨[0], 5, Strategies.Create, 3⟩, ⟨[1], 10, Strategies.Create, 0⟩],
        [0], [5, 10], 1, 1, 0, some 1⟩
      ⟨⟨[2], 1, Strategies.Mutate⟩, none⟩ false).2 = none
    ∧ (stepGen ⟨[⟨[0], 5, Strategies.Create, 3⟩, ⟨[1], 10, Strategies.Create, 0⟩],
        [0], [5, 10], 1, 1, 0, some 1⟩
      ⟨⟨[2], 1, Strategies.Mutate⟩, none⟩ false).1.pool.getD
        (pEff ⟨[⟨[0], 5, Strategies.Create, 3⟩, ⟨[1], 10, Strategies.Create, 0⟩],
          [0], [5, 10], 1, 1, 0, some 1⟩) 0 = 1
    ∧ (stepGen ⟨[⟨[0], 5, Strategies.Create, 3⟩, ⟨[1], 10, Strategies.Create, 0⟩],
        [0], [5, 10], 1, 1, 0, some 1⟩
      ⟨⟨[2], 1, Strategies.Mutate⟩, none⟩ false).1.bestId = 1
    ∧ ((stepGen ⟨[⟨[0], 5, Strategies.Create, 3⟩, ⟨[1], 10, Strategies.Create, 0⟩],
        [0], [5, 10], 1, 1, 0, some 1⟩
      ⟨⟨[2], 1, Strategies.Mutate⟩, none⟩ false).1.store.getD 1 default).Age = 0
    ∧ ((stepGen ⟨[⟨[0], 5, Strategies.Create, 3⟩, ⟨[1], 10, Strategies.Create, 0⟩],
        [0], [5, 10], 1, 1, 0, some 1⟩
      ⟨⟨[2], 1, Strategies.Mutate⟩, none⟩ false).1.store.getD 1 default).Genes
        = (([⟨[0], 5, Strategies.Create, 3⟩,
            (⟨[1], 10, Strategies.Create, 0⟩ : Chromosome)]).getD 1 default).Genes
    ∧ ((stepGen ⟨[⟨[0], 5, Strategies.Create, 3⟩, ⟨[1], 10, Strategies.Create, 0⟩],
        [0], [5, 10], 1, 1, 0, some 1⟩
      ⟨⟨[2], 1, Strategies.Mutate⟩, none⟩ false).1.store.getD 1 default).Fitness
        = (([⟨[0], 5, Strategies.Create, 3⟩,
            (⟨[1], 10, Strategies.Create, 0⟩ : Chromosome)]).getD 1 default).Fitness
    ∧ (stepGen ⟨[⟨[0], 5, Strategies.Create, 3⟩, ⟨[1], 10, Strategies.Create, 0⟩],
        [0], [5, 10], 1, 1, 0, some 1⟩
      ⟨⟨[2], 1, Strategies.Mutate⟩, none⟩ false).1.hist = [5, 10]
    ∧ (∀ j, j ≠ pEff ⟨[⟨[0], 5, Strategies.Create, 3⟩, ⟨[1], 10, Strategies.Create, 0⟩],
          [0], [5, 10], 1, 1, 0, some 1⟩ →
        (stepGen ⟨[⟨[0], 5, Strategies.Create, 3⟩, ⟨[1], 10, Strategies.Create, 0⟩],
          [0], [5, 10], 1, 1, 0, some 1⟩
        ⟨⟨[2], 1, Strategies.Mutate⟩, none⟩ false).1.pool.getD j 0 = ([0] : List ℕ).getD j 0)
    ∧ (stepGen ⟨[⟨[0], 5, Strategies.Create, 3⟩, ⟨[1], 10, Strategies.Create, 0⟩],
        [0], [5, 10], 1, 1, 0, some 1⟩
      ⟨⟨[2], 1, Strategies.Mutate⟩, none⟩ false).1.pool.length = 1) := by
  exact ⟨anneal_reject_draw_one,
    C4_anneal_reject_installs_best
      ⟨[⟨[0], 5, Strategies.Create, 3⟩, ⟨[1], 10, Strategies.Create, 0⟩],
        [0], [5, 10], 1, 1, 0, some 1⟩
      ⟨⟨[2], 1, Strategies.Mutate⟩, none⟩ 1 1
      rfl (by decide) (by decide) rfl anneal_reject_draw_one (by decide) (by decide)⟩

/-- Claim C10: a worse-than-parent child accepted into a pool slot through
the annealing probability check enters the pool with age 0 (the freshly
constructed chromosome's age, set by the constructor, is never reassigned
in that branch), regardless of the evicted parent's accumulated age; its
genes and fitness are the ones produced by the reproduction operator. -/
theorem C10_anneal_child_age_zero
    (s : GenState) (inp : StepInput) (draw : ℚ) (m : ℕ)
    (hmax : s.maxAge = some m)
    (hworse : (parentOf s).Fitness > (mkChrom inp.child).Fitness)
    (hage : ¬ m > (parentOf s).Age + 1)
    (hdonor : inp.donorReplace = none)
    (hacc : annealAccepts s.hist inp.child.Fitness draw)
    (hp : pEff s < s.pool.length)
    (hpid : parentIdOf s < s.store.length) :
    (stepGen s inp true).1.pool.getD (pEff s) 0 = s.store.length
    ∧ ((stepGen s inp true).1.store.getD s.store.length default).Age = 0
    ∧ ((stepGen s inp true).1.store.getD s.store.length default).Genes = inp.child.Genes
    ∧ ((stepGen s inp true).1.store.getD s.store.length default).Fitness
        = inp.child.Fitness := by
  rw [stepGen_eq_worse_accept s inp m hworse hmax hage]
  have hne : parentIdOf s ≠ s.store.length := by omega
  have hstore : (agedStore s inp).getD s.store.length default = mkChrom inp.child := by
    unfold agedStore
    rw [getD_set_ne _ _ _ _ _ hne, ← childIdOf_none s inp hdonor,
      storeAfterChild_getD_childId]
  refine ⟨?_, ?_, ?_, ?_⟩
  · show ((poolAfterChild s inp).set (pEff s) (childIdOf s inp)).getD (pEff s) 0
      = s.store.length
    rw [poolAfterChild_none s inp hdonor, getD_set_eq _ _ _ _ hp,
      childIdOf_none s inp hdonor]
  · show ((agedStore s inp).getD s.store.length default).Age = 0
    rw [hstore]
    rfl
  · show ((agedStore s inp).getD s.store.length default).Genes = inp.child.Genes
    rw [hstore]
    rfl
  · show ((agedStore s inp).getD s.store.length default).Fitness = inp.child.Fitness
    rw [hstore]
    rfl

/-- Witness for C10: the evicted parent has age 3; the accepted child
enters slot 0 as a fresh object with age 0. -/
theorem C10_anneal_child_age_zero_witness :
    annealAccepts [5, 10] 1 0 ∧
    ((stepGen ⟨[⟨[0], 5, Strategies.Create, 3⟩, ⟨[1], 10, Strategies.Create, 0⟩],
        [0], [5, 10], 1, 1, 0, some 1⟩
      ⟨⟨[2], 1, Strategies.Mutate⟩, none⟩ true).1.pool.getD
        (pEff ⟨[⟨[0], 5, Strategies.Create, 3⟩, ⟨[1], 10, Strategies.Create, 0⟩],
          [0], [5, 10], 1, 1, 0, some 1⟩) 0 = 2
    ∧ ((stepGen ⟨[⟨[0], 5, Strategies.Create, 3⟩, ⟨[1], 10, Strategies.Create, 0⟩],
        [0], [5, 10], 1, 1, 0, some 1⟩
      ⟨⟨[2], 1, Strategies.Mutate⟩, none⟩ true).1.store.getD 2 default).Age = 0
    ∧ ((stepGen ⟨[⟨[0], 5, Strategies.Create, 3⟩, ⟨[1], 10, Strategies.Create, 0⟩],
        [0], [5, 10], 1, 1, 0, some 1⟩
      ⟨⟨[2], 1, Strategies.Mutate⟩, none⟩ true).1.store.getD 2 default).Genes = [2]
    ∧ ((stepGen ⟨[⟨[0], 5, Strategies.Create, 3⟩, ⟨[1], 10, Strategies.Create, 0⟩],
        [0], [5, 10], 1, 1, 0, some 1⟩
      ⟨⟨[2], 1, Strategies.Mutate⟩, none⟩ true).1.store.getD 2 default).Fitness = 1) := by
  have hAcc : annealAccepts [5, 10] 1 0 := by
    show ((0 : ℚ) : ℝ) < Real.exp _
    rw [Rat.cast_zero]
    exact Real.exp_pos _
  exact ⟨hAcc,
    C10_anneal_child_age_zero
      ⟨[⟨[0], 5, Strategies.Create, 3⟩, ⟨[1], 10, Strategies.Create, 0⟩],
        [0], [5, 10], 1, 1, 0, some 1⟩
      ⟨⟨[2], 1, Strategies.Mutate⟩, none⟩ 0 1
      rfl (by decide) (by decide) rfl hAcc (by decide) (by decide)⟩

/-! ### C6: hill-climbing reduction -/

/-- Claim C6: with `pool_size = 1`, no `max_age` and no crossover function,
the engine is plain hill-climbing.  The initial state of such a run
satisfies `HCInv`, and every step from an `HCInv` state preserves it and
satisfies: the child is installed in the single pool slot (the slot's id
becomes the freshly allocated object `s.store.length`) iff the child's
fitness is at least the parent's, and a chromosome is yielded iff the
child's fitness strictly exceeds the current Global Best's. -/
theorem C6_hill_climbing :
    (∀ first : ChildSpec, HCInv (initGen first [] none).1)
    ∧ ∀ s inp b, HCInv s → inp.donorReplace = none →
        HCInv (stepGen s inp b).1
        ∧ ((stepGen s inp b).1.pool.getD 0 0 = s.store.length
            ↔ (parentOf s).Fitness ≤ (mkChrom inp.child).Fitness)
        ∧ ((stepGen s inp b).2.isSome = true
            ↔ (s.store.getD s.bestId default).Fitness < (mkChrom inp.child).Fitness) := by
  constructor
  · intro first
    exact ⟨rfl, rfl, le_rfl, rfl, Nat.zero_lt_one, Nat.zero_lt_one, rfl⟩
  · intro s inp b hInv hdonor
    obtain ⟨hpl, hlpi, hpx, hMA, hbid, hslot, hF⟩ := hInv
    have hpe : pEff s = 0 := by
      unfold pEff
      split <;> omega
    have hparent : parentOf s = s.store.getD (s.pool.getD 0 0) default := by
      unfold parentOf parentIdOf
      rw [hpe]
    have e2 : (parentOf s).Fitness = (s.store.getD (s.pool.getD 0 0) default).Fitness := by
      rw [hparent]
    have hcid : childIdOf s inp = s.store.length := childIdOf_none s inp hdonor
    have hpool : poolAfterChild s inp = s.pool := poolAfterChild_none s inp hdonor
    have hzlt : (0 : ℕ) < s.pool.length := by omega
    have e3 : (mkChrom inp.child).Fitness = inp.child.Fitness := rfl
    have hclt : childIdOf s inp < (storeAfterChild s inp).length := childIdOf_lt s inp
    have hpoolslot : ((poolAfterChild s inp).set (pEff s) (childIdOf s inp)).getD 0 0
        = childIdOf s inp := by
      rw [hpe, hpool, getD_set_eq _ _ _ _ hzlt]
    by_cases h1 : (parentOf s).Fitness > (mkChrom inp.child).Fitness
    · rw [stepGen_eq_worse_none s inp b h1 hMA]
      refine ⟨⟨?_, hlpi, ?_, hMA, ?_, ?_, ?_⟩, ?_, ?_⟩
      · show (poolAfterChild s inp).length = 1
        rw [hpool]
        exact hpl
      · show pEff s ≤ 1
        omega
      · exact lt_of_lt_of_le hbid (store_le_storeAfterChild s inp)
      · show (poolAfterChild s inp).getD 0 0 < (storeAfterChild s inp).length
        rw [hpool]
        exact lt_of_lt_of_le hslot (store_le_storeAfterChild s inp)
      · show ((storeAfterChild s inp).getD s.bestId default).Fitness
          = ((storeAfterChild s inp).getD ((poolAfterChild s inp).getD 0 0) default).Fitness
        rw [hpool, storeAfterChild_getD _ _ _ hbid, storeAfterChild_getD _ _ _ hslot]
        exact hF
      · refine iff_of_false (fun hc => ?_) (not_le.mpr h1)
        have hc2 : (poolAfterChild s inp).getD 0 0 = s.store.length := hc
        rw [hpool] at hc2
        omega
      · refine iff_of_false (by simp) (fun hc => ?_)
        omega
    · by_cases h2 : (mkChrom inp.child).Fitness > (parentOf s).Fitness
      · have h3 : ({ mkChrom inp.child with Age := 0 } : Chromosome).Fitness >
            ((storeAfterChild s inp).getD s.bestId default).Fitness := by
          show (mkChrom inp.child).Fitness
            > ((storeAfterChild s inp).getD s.bestId default).Fitness
          rw [storeAfterChild_getD _ _ _ hbid]
          omega
        rw [stepGen_eq_better_yield s inp b h1 h2 h3]
        refine ⟨⟨?_, hlpi, ?_, hMA, ?_, ?_, ?_⟩, ?_, ?_⟩
        · show (((poolAfterChild s inp).set (pEff s) (childIdOf s inp))).length = 1
          rw [List.length_set, hpool]
          exact hpl
        · show pEff s ≤ 1
          omega
        · show childIdOf s inp < (((storeAfterChild s inp).set (childIdOf s inp)
            { mkChrom inp.child with Age := 0 })).length
          rw [List.length_set]
          exact hclt
        · show (((poolAfterChild s inp).set (pEff s) (childIdOf s inp))).getD 0 0
            < (((storeAfterChild s inp).set (childIdOf s inp)
              { mkChrom inp.child with Age := 0 })).length
          rw [hpoolslot, List.length_set]
          exact hclt
        · show (((storeAfterChild s inp).set (childIdOf s inp)
              { mkChrom inp.child with Age := 0 }).getD (childIdOf s inp) default).Fitness
            = (((storeAfterChild s inp).set (childIdOf s inp)
              { mkChrom inp.child with Age := 0 }).getD
                ((((poolAfterChild s inp).set (pEff s) (childIdOf s inp))).getD 0 0)
                  default).Fitness
          rw [hpoolslot]
        · refine iff_of_true ?_ (le_of_lt h2)
          show (((poolAfterChild s inp).set (pEff s) (childIdOf s inp))).getD 0 0
            = s.store.length
          rw [hpoolslot, hcid]
        · refine iff_of_true rfl ?_
          omega
      · rw [stepGen_eq_equal s inp b h1 h2]
        have hne : s.bestId ≠ childIdOf s inp := by omega
        have e4 : ({ mkChrom inp.child with Age := (parentOf s).Age + 1 } :
            Chromosome).Fitness = inp.child.Fitness := rfl
        refine ⟨⟨?_, hlpi, ?_, hMA, ?_, ?_, ?_⟩, ?_, ?_⟩
        · show (((poolAfterChild s inp).set (pEff s) (childIdOf s inp))).length = 1
          rw [List.length_set, hpool]
          exact hpl
        · show pEff s ≤ 1
          omega
        · show s.bestId < (((storeAfterChild s inp).set (childIdOf s inp)
            { mkChrom inp.child with Age := (parentOf s).Age + 1 })).length
          rw [List.length_set]
          exact lt_of_lt_of_le hbid (store_le_storeAfterChild s inp)
        · show (((poolAfterChild s inp).set (pEff s) (childIdOf s inp))).getD 0 0
            < (((storeAfterChild s inp).set (childIdOf s inp)
              { mkChrom inp.child with Age := (parentOf s).Age + 1 })).length
          rw [hpoolslot, List.length_set]
          exact hclt
        · show (((storeAfterChild s inp).set (childIdOf s inp)
              { mkChrom inp.child with Age := (parentOf s).Age + 1 }).getD
                s.bestId default).Fitness
            = (((storeAfterChild s inp).set (childIdOf s inp)
              { mkChrom inp.child with Age := (parentOf s).Age + 1 }).getD
                ((((poolAfterChild s inp).set (pEff s) (childIdOf s inp))).getD 0 0)
                  default).Fitness
          rw [hpoolslot, getD_set_ne _ _ _ _ _ (Ne.symm hne), getD_set_eq _ _ _ _ hclt,
            storeAfterChild_getD _ _ _ hbid]
          omega
        · refine iff_of_true ?_ (not_lt.mp h1)
          show (((poolAfterChild s inp).set (pEff s) (childIdOf s inp))).getD 0 0
            = s.store.length
          rw [hpoolslot, hcid]
        · refine iff_of_false (by simp) (fun hc => ?_)
          omega

/-- Witness for C6: the initial single-slot state with a fitness-3 parent,
stepped with a fitness-7 mutate child and any annealing draw. -/
theorem C6_hill_climbing_witness :
    HCInv (initGen ⟨[1], 3, Strategies.Create⟩ [] none).1
    ∧ (HCInv (stepGen ⟨[⟨[1], 3, Strategies.Create, 0⟩], [0], [3], 0, 1, 0, none⟩
          ⟨⟨[2], 7, Strategies.Mutate⟩, none⟩ false).1
      ∧ ((stepGen ⟨[⟨[1], 3, Strategies.Create, 0⟩], [0], [3], 0, 1, 0, none⟩
            ⟨⟨[2], 7, Strategies.Mutate⟩, none⟩ false).1.pool.getD 0 0 = 1
          ↔ (parentOf ⟨[⟨[1], 3, Strategies.Create, 0⟩], [0], [3], 0, 1, 0, none⟩).Fitness
            ≤ (mkChrom ⟨[2], 7, Strategies.Mutate⟩).Fitness)
      ∧ ((stepGen ⟨[⟨[1], 3, Strategies.Create, 0⟩], [0], [3], 0, 1, 0, none⟩
            ⟨⟨[2], 7, Strategies.Mutate⟩, none⟩ false).2.isSome = true
          ↔ (([⟨[1], 3, Strategies.Create, 0⟩] : List Chromosome).getD 0 default).Fitness
            < (mkChrom ⟨[2], 7, Strategies.Mutate⟩).Fitness)) :=
  ⟨C6_hill_climbing.1 ⟨[1], 3, Strategies.Create⟩,
    C6_hill_climbing.2 ⟨[⟨[1], 3, Strategies.Create, 0⟩], [0], [3], 0, 1, 0, none⟩
      ⟨⟨[2], 7, Strategies.Mutate⟩, none⟩ false (by unfold HCInv; decide) rfl⟩

/-! ### C8: the default Mutate operator -/

/-- Claim C8: for every parent genome and every gene set of at least 2
distinct symbols (`i`, `j` are the two distinct indices drawn by
`random.sample(geneSet, 2)` and `ridx` the drawn position), the default
Mutate operator returns a child whose genome differs from the parent's at
exactly one position, and the symbol at that position actually changes:
if the first sampled symbol equals the current one the second is used. -/
theorem C8_mutate_changes_one_position
    (parent : Chromosome) (geneSet : List ℤ) (get_fitness : List ℤ → ℤ)
    (ridx i j : ℕ) (rest : List ℕ)
    (hnodup : geneSet.Nodup)
    (hi : i < geneSet.length) (hj : j < geneSet.length) (hij : i ≠ j)
    (hr : ridx < parent.Genes.length) :
    ∃ c, _mutateE parent geneSet get_fitness ridx (i :: j :: rest) = .ok c
      ∧ c.Genes.length = parent.Genes.length
      ∧ c.Genes.getD ridx 0 ≠ parent.Genes.getD ridx 0
      ∧ (∀ t, t ≠ ridx → c.Genes.getD t 0 = parent.Genes.getD t 0)
      ∧ c.Strategy = Strategies.Mutate := by
  have hlen2 : 2 ≤ geneSet.length := by omega
  have hsample : pySample geneSet 2 (i :: j :: rest)
      = .ok [geneSet.getD i 0, geneSet.getD j 0] := by
    unfold pySample
    rw [if_pos hlen2]
    rfl
  have hdistinct : geneSet.getD i 0 ≠ geneSet.getD j 0 := by
    rw [List.getD_eq_getElem _ _ hi, List.getD_eq_getElem _ _ hj]
    intro he
    exact hij (List.Nodup.getElem_inj_iff hnodup |>.mp he)
  have heq : _mutateE parent geneSet get_fitness ridx (i :: j :: rest)
      = .ok (mkChromosome
          (parent.Genes.set ridx (if geneSet.getD i 0 = parent.Genes.getD ridx 0
            then geneSet.getD j 0 else geneSet.getD i 0))
          (get_fitness (parent.Genes.set ridx
            (if geneSet.getD i 0 = parent.Genes.getD ridx 0
              then geneSet.getD j 0 else geneSet.getD i 0)))
          Strategies.Mutate) := by
    unfold _mutateE
    rw [hsample]
    rfl
  have hvne : (if geneSet.getD i 0 = parent.Genes.getD ridx 0
      then geneSet.getD j 0 else geneSet.getD i 0) ≠ parent.Genes.getD ridx 0 := by
    by_cases hc : geneSet.getD i 0 = parent.Genes.getD ridx 0
    · rw [if_pos hc, ← hc]
      exact fun he => hdistinct he.symm
    · rw [if_neg hc]
      exact hc
  refine ⟨_, heq, ?_, ?_, ?_, rfl⟩
  · show (parent.Genes.set ridx _).length = parent.Genes.length
    exact List.length_set parent.Genes _ _
  · show (parent.Genes.set ridx _).getD ridx 0 ≠ parent.Genes.getD ridx 0
    rw [getD_set_eq _ _ _ _ hr]
    exact hvne
  · intro t ht
    show (parent.Genes.set ridx _).getD t 0 = parent.Genes.getD t 0
    exact getD_set_ne _ _ _ _ _ (fun e => ht e.symm)

/-- Witness for C8: parent genome `[9, 9]`, gene set `[3, 4]`, mutated
position 0, sampled indices 0 and 1. -/
theorem C8_mutate_changes_one_position_witness :
    ([3, 4] : List ℤ).Nodup ∧ (0 : ℕ) ≠ 1 ∧
    (∃ c, _mutateE ⟨[9, 9], 9, Strategies.Create, 0⟩ [3, 4]
          (fun g => g.foldr (· + ·) 0) 0 (0 :: 1 :: []) = .ok c
      ∧ c.Genes.length = (⟨[9, 9], 9, Strategies.Create, 0⟩ : Chromosome).Genes.length
      ∧ c.Genes.getD 0 0
          ≠ (⟨[9, 9], 9, Strategies.Create, 0⟩ : Chromosome).Genes.getD 0 0
      ∧ (∀ t, t ≠ 0 → c.Genes.getD t 0
          = (⟨[9, 9], 9, Strategies.Create, 0⟩ : Chromosome).Genes.getD t 0)
      ∧ c.Strategy = Strategies.Mutate) :=
  ⟨by decide, by decide,
    C8_mutate_changes_one_position ⟨[9, 9], 9, Strategies.Create, 0⟩ [3, 4]
      (fun g => g.foldr (· + ·) 0) 0 0 1 [] (by decide) (by decide) (by decide)
      (by decide) (by decide)⟩

/-! ### C5: invalid gene set is not caught before the loop -/

theorem genParentAux_singleton (g : ℤ) (len : ℕ) :
    ∀ k genes, genes.length + k = len →
      genParentAux [g] len (List.replicate k [0]) genes (k + 1)
        = .ok (some (genes ++ List.replicate k g)) := by
  intro k
  induction k with
  | zero =>
    intro genes hl
    rw [genParentAux, if_neg (by omega)]
    simp
  | succ k ih =>
    intro genes hl
    rw [genParentAux, if_pos (by omega)]
    have h1 : (List.replicate (k + 1) ([0] : List ℕ)).headD [] = [0] := by
      simp [List.replicate_succ]
    have h2 : (List.replicate (k + 1) ([0] : List ℕ)).tail = List.replicate k [0] := by
      simp [List.replicate_succ]
    have hmin : min (len - genes.length) ([g] : List ℤ).length = 1 := by
      simp only [List.length_cons, List.length_nil]
      omega
    have h3 : pySample [g] 1 [0] = .ok [g] := by
      unfold pySample
      rw [if_pos (by simp)]
      rfl
    rw [h1, h2, hmin, h3]
    show genParentAux [g] len (List.replicate k [0]) (genes ++ [g]) (k + 1)
      = .ok (some (genes ++ List.replicate (k + 1) g))
    rw [ih (genes ++ [g]) (by simp; omega)]
    simp [List.replicate_succ]

/-- Claim C5 as stated is false: with gene set `[7]` (one distinct symbol),
default Mutate active, target length 2 and pool size 2, everything
`_get_improvement` does before its main loop (`seedPhaseE`) completes
normally — no error of any kind (and in particular no `ConfigurationError`,
which does not exist in the source) is signalled before the loop — while
the first default-Mutate invocation of the main loop raises the
`random.sample` error mid-run. -/
theorem C5_counterexample :
    seedPhaseE 2 [7] (fun g => g.foldr (· + ·) 0) 2 [[[0], [0]], [[0], [0]]] 3 (some 5)
      = .ok (some (⟨[⟨[7, 7], 14, Strategies.Create, 0⟩, ⟨[7, 7], 14, Strategies.Create, 0⟩],
          [0, 1], [14], 0, 1, 1, some 5⟩,
        [⟨[7, 7], 14, Strategies.Create, 0⟩]))
    ∧ _mutateE ⟨[7, 7], 14, Strategies.Create, 0⟩ [7] (fun g => g.foldr (· + ·) 0) 0 [0, 1]
      = .error "Sample larger than population" :=
  ⟨rfl, rfl⟩

/-- Claim C5, amended: the engine performs no configuration validation and
signals nothing before the main loop: with a singleton gene set the default
Create operator succeeds (each sampling batch has size
`min(remaining, 1) = 1`), so seeding completes normally, and the invalid
gene set only surfaces mid-run, on the first default-Mutate invocation,
as the `random.sample` error ("Sample larger than population", a
`ValueError` — not a `ConfigurationError`, which the source does not
define). -/
theorem C5_invalid_geneset_fails_midrun
    (parent : Chromosome) (geneSet : List ℤ) (get_fitness : List ℤ → ℤ)
    (ridx : ℕ) (sel : List ℕ) (g : ℤ) (len : ℕ) (f2 : List ℤ → ℤ)
    (hsmall : geneSet.length < 2) :
    _mutateE parent geneSet get_fitness ridx sel = .error "Sample larger than population"
    ∧ _generate_parentE len [g] f2 (List.replicate len [0]) (len + 1)
        = .ok (some (mkChromosome (List.replicate len g) (f2 (List.replicate len g))
            Strategies.Create)) := by
  constructor
  · unfold _mutateE pySample
    rw [if_neg (by omega)]
  · unfold _generate_parentE
    rw [genParentAux_singleton g len len [] (by simp)]
    rfl

/-- Witness for the amended C5: gene set `[7]`, target length 2. -/
theorem C5_invalid_geneset_fails_midrun_witness :
    ([7] : List ℤ).length < 2 ∧
    (_mutateE ⟨[7, 7], 14, Strategies.Create, 0⟩ [7] (fun g => g.foldr (· + ·) 0) 0 [0, 1]
        = .error "Sample larger than population"
    ∧ _generate_parentE 2 [7] (fun g => g.foldr (· + ·) 0) (List.replicate 2 [0]) (2 + 1)
        = .ok (some (mkChromosome (List.replicate 2 7)
            ((fun g => g.foldr (· + ·) 0) (List.replicate 2 7)) Strategies.Create))) :=
  ⟨by decide,
    C5_invalid_geneset_fails_midrun ⟨[7, 7], 14, Strategies.Create, 0⟩ [7]
      (fun g => g.foldr (· + ·) 0) 0 [0, 1] 7 2 (fun g => g.foldr (· + ·) 0) (by decide)⟩

/-! ### C7: the crossover sentinel path -/

/-- Claim C7 as stated is false for a single-slot pool: with
`poolSize = 1` the donor index degenerates to the parent's own slot
(`(0 + 1) % 1 = 0`), so on the sentinel the parent's own slot is replaced
by the brand-new candidate and the returned value is Mutate applied to that
*replacement* (genes `[6]`), not to the current parent (genes `[1]`). -/
theorem C7_counterexample :
    (_crossoverE [0] 0 [⟨[0], 0, Strategies.Create, 0⟩] (fun g => g.foldr (· + ·) 0)
        (fun _ _ => none)
        (fun c => mkChromosome (c.Genes.map (· + 1)) 0 Strategies.Mutate)
        ⟨[5], 5, Strategies.Create, 0⟩ 0).1 = [⟨[5], 5, Strategies.Create, 0⟩]
    ∧ ((_crossoverE [0] 0 [⟨[0], 0, Strategies.Create, 0⟩] (fun g => g.foldr (· + ·) 0)
        (fun _ _ => none)
        (fun c => mkChromosome (c.Genes.map (· + 1)) 0 Strategies.Mutate)
        ⟨[5], 5, Strategies.Create, 0⟩ 0).2).Genes = [6]
    ∧ ((fun c => mkChromosome (c.Genes.map (· + 1)) 0 Strategies.Mutate)
        (([⟨[0], 0, Strategies.Create, 0⟩] : List Chromosome).getD 0 default)).Genes = [1]
    ∧ ([6] : List ℤ) ≠ [1] :=
  ⟨rfl, rfl, rfl, by decide⟩

/-- Claim C7, amended: for a pool with at least 2 slots, when the
caller-supplied crossover function returns the sentinel, the resolved donor
index differs from the current slot, the donor's pool slot is replaced with
the brand-new Create-strategy candidate, and the returned value is the
result of applying the Mutate operator to the current parent (unchanged by
the donor replacement).  With a single-slot pool the donor degenerates to
the parent's own slot (see the counterexample). -/
theorem C7_crossover_sentinel (parentGenes : List ℤ) (index donorDraw d : ℕ)
    (parents : List Chromosome) (get_fitness : List ℤ → ℤ)
    (crossover : List ℤ → List ℤ → Option (List ℤ))
    (mutate : Chromosome → Chromosome) (generated : Chromosome)
    (hlen : 2 ≤ parents.length) (hidx : index < parents.length)
    (hdraw : donorDraw < parents.length)
    (hd : d = if donorDraw = index then (donorDraw + 1) % parents.length else donorDraw)
    (hsent : crossover parentGenes ((parents.getD d default).Genes) = none)
    (hgen : generated.Strategy = Strategies.Create) :
    d ≠ index
    ∧ (_crossoverE parentGenes index parents get_fitness crossover mutate generated
        donorDraw).1 = parents.set d generated
    ∧ ((_crossoverE parentGenes index parents get_fitness crossover mutate generated
        donorDraw).1.getD d default).Strategy = Strategies.Create
    ∧ (_crossoverE parentGenes index parents get_fitness crossover mutate generated
        donorDraw).2 = mutate (parents.getD index default) := by
  have hdi : d ≠ index := by
    rw [hd]
    by_cases he : donorDraw = index
    · rw [if_pos he, he]
      by_cases hlast : index + 1 = parents.length
      · rw [hlast, Nat.mod_self]
        omega
      · rw [Nat.mod_eq_of_lt (by omega)]
        omega
    · rw [if_neg he]
      exact he
  have hdlt : d < parents.length := by
    rw [hd]
    split
    · exact Nat.mod_lt _ (by omega)
    · exact hdraw
  have heq : _crossoverE parentGenes index parents get_fitness crossover mutate generated
      donorDraw = (parents.set d generated,
        mutate ((parents.set d generated).getD index default)) := by
    simp only [_crossoverE, ← hd, hsent]
  refine ⟨hdi, ?_, ?_, ?_⟩
  · rw [heq]
  · rw [heq]
    show ((parents.set d generated).getD d default).Strategy = Strategies.Create
    rw [getD_set_eq _ _ _ _ hdlt]
    exact hgen
  · rw [heq]
    show mutate ((parents.set d generated).getD index default)
      = mutate (parents.getD index default)
    rw [getD_set_ne _ _ _ _ _ hdi]

/-- Witness for the amended C7: two-slot pool, current slot 0, drawn donor
0 (advanced cyclically to 1), always-sentinel crossover function. -/
theorem C7_crossover_sentinel_witness :
    (1 : ℕ) ≠ 0
    ∧ (_crossoverE [0] 0 [⟨[0], 0, Strategies.Create, 0⟩, ⟨[1], 1, Strategies.Create, 0⟩]
        (fun g => g.foldr (· + ·) 0) (fun _ _ => none)
        (fun c => mkChromosome (c.Genes.map (· + 1)) 0 Strategies.Mutate)
        ⟨[5], 5, Strategies.Create, 0⟩ 0).1
      = ([⟨[0], 0, Strategies.Create, 0⟩, ⟨[1], 1, Strategies.Create, 0⟩] :
          List Chromosome).set 1 ⟨[5], 5, Strategies.Create, 0⟩
    ∧ ((_crossoverE [0] 0 [⟨[0], 0, Strategies.Create, 0⟩, ⟨[1], 1, Strategies.Create, 0⟩]
        (fun g => g.foldr (· + ·) 0) (fun _ _ => none)
        (fun c => mkChromosome (c.Genes.map (· + 1)) 0 Strategies.Mutate)
        ⟨[5], 5, Strategies.Create, 0⟩ 0).1.getD 1 default).Strategy = Strategies.Create
    ∧ (_crossoverE [0] 0 [⟨[0], 0, Strategies.Create, 0⟩, ⟨[1], 1, Strategies.Create, 0⟩]
        (fun g => g.foldr (· + ·) 0) (fun _ _ => none)
        (fun c => mkChromosome (c.Genes.map (· + 1)) 0 Strategies.Mutate)
        ⟨[5], 5, Strategies.Create, 0⟩ 0).2
      = (fun c => mkChromosome (c.Genes.map (· + 1)) 0 Strategies.Mutate)
        (([⟨[0], 0, Strategies.Create, 0⟩, ⟨[1], 1, Strategies.Create, 0⟩] :
          List Chromosome).getD 0 default) :=
  C7_crossover_sentinel [0] 0 0 1
    [⟨[0], 0, Strategies.Create, 0⟩, ⟨[1], 1, Strategies.Create, 0⟩]
    (fun g => g.foldr (· + ·) 0) (fun _ _ => none)
    (fun c => mkChromosome (c.Genes.map (· + 1)) 0 Strategies.Mutate)
    ⟨[5], 5, Strategies.Create, 0⟩ (by decide) (by decide) (by decide) (by decide)
    rfl rfl

/-! ### C2: the per-iteration strategy selector -/

/-- Claim C2 as stated is false: the selector does not draw from the fixed
set `{Mutate} ∪ {Crossover}`.  The driver appends the strategy of every
displayed improvement to `usedStrategies`, and the very first improvement —
the unconditionally yielded first parent — carries the Create tag; so with
crossover enabled, from the first main-loop iteration on, `usedStrategies`
is `[Mutate, Crossover, Create]` and the drawn index 2 selects Create
mid-run, which is outside the claimed fixed set. -/
theorem C2_counterexample :
    _generate_parentE 2 [3, 4] (fun g => g.foldr (· + ·) 0) [[0, 1]] 3
      = .ok (some ⟨[3, 4], 7, Strategies.Create, 0⟩)
    ∧ (initGen ⟨[3, 4], 7, Strategies.Create⟩ [] none).2.map (·.Strategy)
      = [Strategies.Create]
    ∧ driverAppendStrategy (initUsedStrategies true) Strategies.Create
      = [Strategies.Mutate, Strategies.Crossover, Strategies.Create]
    ∧ fnNewChildStrategy true [Strategies.Mutate, Strategies.Crossover, Strategies.Create] 2
      = Strategies.Create
    ∧ Strategies.Create ∉ [Strategies.Mutate, Strategies.Crossover] :=
  ⟨rfl, rfl, rfl, rfl, by decide⟩

/-- Claim C2, amended: when no crossover function is supplied the selector
always chooses Mutate, ignoring `usedStrategies`; when crossover is
supplied the selector draws uniformly from the *growing* `usedStrategies`
list (initially `[Mutate, Crossover]`, extended by the strategy of every
displayed improvement), so its result is always an element of the current
list — and since the first improvement is Create-tagged, Create is
selectable mid-run. -/
theorem C2_selector_draws_from_grown_list (used : List Strategies) (k : ℕ)
    (hne : used ≠ []) :
    fnNewChildStrategy false used k = Strategies.Mutate
    ∧ fnNewChildStrategy true used k ∈ used
    ∧ fnNewChildStrategy true (driverAppendStrategy (initUsedStrategies true)
        Strategies.Create) 2 = Strategies.Create := by
  refine ⟨rfl, ?_, rfl⟩
  show used.getD (k % used.length) Strategies.Mutate ∈ used
  have hlt : k % used.length < used.length := Nat.mod_lt _ (List.length_pos.mpr hne)
  rw [List.getD_eq_getElem _ _ hlt]
  exact List.getElem_mem _

/-- Witness for the amended C2 at `usedStrategies = [Mutate, Crossover]`,
drawn index 5. -/
theorem C2_selector_draws_from_grown_list_witness :
    ([Strategies.Mutate, Strategies.Crossover] : List Strategies) ≠ []
    ∧ (fnNewChildStrategy false [Strategies.Mutate, Strategies.Crossover] 5
        = Strategies.Mutate
    ∧ fnNewChildStrategy true [Strategies.Mutate, Strategies.Crossover] 5
        ∈ [Strategies.Mutate, Strategies.Crossover]
    ∧ fnNewChildStrategy true (driverAppendStrategy (initUsedStrategies true)
        Strategies.Create) 2 = Strategies.Create) :=
  ⟨by decide,
    C2_selector_draws_from_grown_list [Strategies.Mutate, Strategies.Crossover] 5
      (by decide)⟩

end Genetic
